import Mathlib

set_option maxHeartbeats 1000000

/- Shallow embedding of astrbot_plugin_memory_reboot (main.py).
   Python floats are modelled as real numbers where square roots occur
   (cosine similarity) and as rationals elsewhere; timestamps are rationals.
   A Python dict record is modelled as a structure; Python truthiness of an
   optional list-valued field is modelled by the empty list, since the code
   tests these fields with bare truthiness (None and empty collapse). -/

/-- One stored message record, as built in on_group_message (main.py 1298-1302).
`embedding = []` models a missing or empty text fingerprint, `image_hash = []`
a missing image hash; both match the code's truthiness tests on these keys. -/
structure Msg where
  id : String
  sender_id : String
  sender_name : String
  content : String
  timestamp : ℚ
  embedding : List ℝ
  has_image : Bool
  image_hash : List (Fin 16)

/-- Plugin configuration values read via config.get in the decision pipeline. -/
structure Config where
  similarity_threshold : ℝ
  image_hash_threshold : ℚ
  min_unique_senders : Nat
  cooldown_seconds : ℚ
  enable_llm_judge : Bool

/-- Sum of squares of the entries of a vector (squared np.linalg.norm). -/
def sumSq (v : List ℝ) : ℝ := (v.map (fun x => x * x)).sum

/-- Dot product of two vectors (np.dot); only exercised on equal lengths. -/
def dotL (a b : List ℝ) : ℝ := (List.zipWith (fun x y => x * y) a b).sum

/-- Mirrors _cosine_similarity (main.py 822-847): returns 0.0 when either
vector is empty or the lengths differ, otherwise dot divided by the product of
the Euclidean norms plus the 1e-9 guard added to avoid division by zero. -/
noncomputable def cosine_similarity (v1 v2 : List ℝ) : ℝ :=
  if v1.isEmpty ∨ v2.isEmpty ∨ v1.length ≠ v2.length then 0
  else dotL v1 v2 / (Real.sqrt (sumSq v1) * Real.sqrt (sumSq v2) + 1e-9)

/-- Numeric value of a hex-digit string, most significant digit first,
mirroring int(h, 16) on the strings produced by the image hasher. -/
def hexVal (h : List (Fin 16)) : Nat := h.foldl (fun a d => a * 16 + d.val) 0

/-- Width-w most-significant-bit-first binary expansion of n; for n < 2 ^ w
this is exactly the string bin(n)[2:].zfill(w) of the Python code. -/
def toBitsMSB : Nat → Nat → List Bool
  | 0, _ => []
  | w + 1, n => n.testBit w :: toBitsMSB w n

/-- Mirrors _hash_similarity (main.py 940-950) on hex-digit strings: 0.0 on
empty input or length mismatch, otherwise 1 - (bit differences / bit length)
over the zero-filled binary expansions.  The ValueError branch of the Python
code is unreachable on hex-digit strings and is therefore not modelled. -/
def hash_similarity (hash1 hash2 : List (Fin 16)) : ℚ :=
  if hash1.isEmpty ∨ hash2.isEmpty ∨ hash1.length ≠ hash2.length then 0
  else
    let bin1 := toBitsMSB (hash1.length * 4) (hexVal hash1)
    let bin2 := toBitsMSB (hash2.length * 4) (hexVal hash2)
    let diff := (List.zipWith (fun c1 c2 => c1 != c2) bin1 bin2).count true
    1 - (diff : ℚ) / (bin1.length : ℚ)

/-- Loop body of _find_best_match (main.py 963-977): skip records with an
absent or dimension-mismatched embedding, update the running best similarity
on strict improvement, and record the message only when the threshold is met. -/
noncomputable def fbmStep (embedding : List ℝ) (threshold : ℝ)
    (acc : Option Msg × Int × ℝ) (p : Nat × Msg) : Option Msg × Int × ℝ :=
  if p.2.embedding.isEmpty then acc
  else if p.2.embedding.length ≠ embedding.length then acc
  else
    let sim := cosine_similarity embedding p.2.embedding
    if sim > acc.2.2 then
      if sim ≥ threshold then (some p.2, (p.1 : Int), sim)
      else (acc.1, acc.2.1, sim)
    else acc

/-- Mirrors _find_best_match (main.py 956-983): scan the first
len - exclude_recent records (all of them when exclude_recent = 0) starting
from (best_msg, best_idx, best_sim) = (None, -1, 0.0). -/
noncomputable def find_best_match (messages : List Msg) (embedding : List ℝ)
    (threshold : ℝ) (exclude_recent : Nat) : Option Msg × Int × ℝ :=
  let search_range :=
    if 0 < exclude_recent then messages.length - exclude_recent
    else messages.length
  ((messages.take search_range).enum).foldl (fbmStep embedding threshold)
    (none, -1, 0)

/-- Loop body of _find_similar_image (main.py 991-1000): skip records without
an image hash, otherwise the same best-tracking logic as the text matcher. -/
def fsiStep (current_hash : List (Fin 16)) (threshold : ℚ)
    (acc : Option Msg × Int × ℚ) (p : Nat × Msg) : Option Msg × Int × ℚ :=
  if p.2.image_hash.isEmpty then acc
  else
    let sim := hash_similarity current_hash p.2.image_hash
    if sim > acc.2.2 then
      if sim ≥ threshold then (some p.2, (p.1 : Int), sim)
      else (acc.1, acc.2.1, sim)
    else acc

/-- Mirrors _find_similar_image (main.py 985-1001). -/
def find_similar_image (messages : List Msg) (current_hash : List (Fin 16))
    (threshold : ℚ) (exclude_recent : Nat) : Option Msg × Int × ℚ :=
  let search_range :=
    if 0 < exclude_recent then messages.length - exclude_recent
    else messages.length
  ((messages.take search_range).enum).foldl (fsiStep current_hash threshold)
    (none, -1, 0)

/-- Mirrors _count_unique_senders (main.py 1003-1012): collect the distinct
non-empty sender_id values of records whose embedding is present, has the
query's dimensionality and reaches the threshold.  The Python set is modelled
as a duplicate-free list in insertion order. -/
noncomputable def count_unique_senders (messages : List Msg)
    (embedding : List ℝ) (threshold : ℝ) : Nat × List String :=
  let sender_ids := messages.foldl (fun acc m =>
    if ¬ m.embedding.isEmpty ∧ m.embedding.length = embedding.length ∧
        cosine_similarity embedding m.embedding ≥ threshold then
      if m.sender_id ≠ "" ∧ m.sender_id ∉ acc then acc ++ [m.sender_id]
      else acc
    else acc) []
  (sender_ids.length, sender_ids)

/-- Mirrors _count_unique_senders_by_hash (main.py 1014-1023). -/
def count_unique_senders_by_hash (messages : List Msg)
    (image_hash : List (Fin 16)) (threshold : ℚ) : Nat × List String :=
  let sender_ids := messages.foldl (fun acc m =>
    if ¬ m.image_hash.isEmpty ∧
        hash_similarity image_hash m.image_hash ≥ threshold then
      if m.sender_id ≠ "" ∧ m.sender_id ∉ acc then acc ++ [m.sender_id]
      else acc
    else acc) []
  (sender_ids.length, sender_ids)

/-- Which fingerprint kind produced the selected match (match_type). -/
inductive MatchType where
  | embedding
  | image_hash
deriving DecidableEq

/-- Match selection block of on_group_message (main.py 1309-1325): the text
match is taken first when an embedding is present; an image match replaces it
only when there was no text match, or when the image-matched record has a
strictly smaller timestamp than the text-matched record. -/
noncomputable def select_match (messages_with_current : List Msg)
    (embedding : List ℝ) (image_hash : List (Fin 16))
    (text_threshold : ℝ) (image_hash_threshold : ℚ) :
    Option (Msg × Int × MatchType) :=
  let m1 : Option (Msg × Int × MatchType) :=
    if embedding.isEmpty then none
    else
      match find_best_match messages_with_current embedding text_threshold 1 with
      | (some em, ei, _) => some (em, ei, MatchType.embedding)
      | (none, _, _) => none
  if image_hash.isEmpty then m1
  else
    match find_similar_image messages_with_current image_hash
        image_hash_threshold 1, m1 with
    | (some im, ii, _), none => some (im, ii, MatchType.image_hash)
    | (some im, ii, _), some (mm, mi, mt) =>
        if im.timestamp < mm.timestamp then some (im, ii, MatchType.image_hash)
        else some (mm, mi, mt)
    | (none, _, _), _ => m1

/-- Outcome of one _judge_remind call (main.py 1109-1178), abstracting the
provider interaction: noProviderId and providerMissing are the early-return
configuration failures, callFailed the exception path, emptyCompletion a falsy
response.  completion parsed textHasTrue models a completion text where
parsed = some b means json.loads succeeded and the should_remind field was
truthy b (default False when absent), parsed = none means json.loads raised;
textHasTrue records whether the lowercased text contains the literal
substring matched by the fallback on parse failure. -/
inductive JudgeCall where
  | noProviderId
  | providerMissing
  | callFailed
  | emptyCompletion
  | completion (parsed : Option Bool) (textHasTrue : Bool)
deriving DecidableEq

/-- Decision logic of _judge_remind (main.py 1109-1178). -/
def judge_remind : JudgeCall → Bool
  | JudgeCall.noProviderId => false
  | JudgeCall.providerMissing => false
  | JudgeCall.callFailed => false
  | JudgeCall.emptyCompletion => false
  | JudgeCall.completion (some b) _ => b
  | JudgeCall.completion none t => t

/-- Per-conversation cache entry: the ordered record sequence plus the
last-load timestamp (main.py 600-603 and 620-623). -/
structure CacheEntry where
  messages : List Msg
  last_load : ℚ

/-- Mirrors _load_messages (main.py 515-543).  dayOf abstracts the local
calendar day of a timestamp (datetime.date.fromtimestamp); disk is the value
a cold disk load would produce (the _load_messages_from_disk result).  The
returned Bool records whether the disk was accessed. -/
def load_messages (retention_days : ℚ) (dayOf : ℚ → Int)
    (cache : Option CacheEntry) (now : ℚ) (disk : List Msg) :
    List Msg × Option CacheEntry × Bool :=
  match cache with
  | some entry =>
    if dayOf entry.last_load = dayOf now then (entry.messages, some entry, false)
    else
      let cutoff := now - retention_days * 86400
      let kept := entry.messages.filter (fun m => m.timestamp > cutoff)
      (kept, some { messages := kept, last_load := now }, false)
  | none => (disk, some { messages := disk, last_load := now }, true)

/-- Mirrors _append_message (main.py 607-639): append to the cached sequence
(creating the entry when absent), then trigger a durability write exactly when
the number of cached records on the new record's calendar day is 1 or a
multiple of 10.  The returned Bool is should_write. -/
def append_message (dayOf : ℚ → Int) (cache : Option CacheEntry) (now : ℚ)
    (message : Msg) : CacheEntry × Bool :=
  let entry := cache.getD { messages := [], last_load := now }
  let messages := entry.messages ++ [message]
  let today := dayOf message.timestamp
  let today_messages := messages.filter (fun m => dayOf m.timestamp = today)
  let should_write :=
    today_messages.length = 1 ∨ today_messages.length % 10 = 0
  ({ messages := messages, last_load := entry.last_load },
   decide should_write)

/-- Observable result of running the decision pipeline on one message. -/
structure PipeResult where
  messages : List Msg
  wrote : Bool
  reminded : Bool

/-- The record dict built for the incoming message (main.py 1298-1302). -/
def mkRecord (uid sender_id sender_name content : String) (now : ℚ)
    (embedding : List ℝ) (has_image : Bool) (image_hash : List (Fin 16)) :
    Msg :=
  { id := uid, sender_id := sender_id, sender_name := sender_name,
    content := content, timestamp := now, embedding := embedding,
    has_image := has_image, image_hash := image_hash }

/-- The sender-count computation of on_group_message (main.py 1332-1342):
text counting for an embedding match, hash counting for an image match, and
the fallback count of 1 when the fingerprint of the matched kind is absent. -/
noncomputable def pipeline_unique_count (messages_with_current : List Msg)
    (embedding : List ℝ) (image_hash : List (Fin 16)) (cfg : Config)
    (match_type : MatchType) : Nat :=
  if match_type = MatchType.embedding ∧ embedding.isEmpty = false then
    (count_unique_senders messages_with_current embedding
      cfg.similarity_threshold).1
  else if match_type = MatchType.image_hash ∧ image_hash.isEmpty = false then
    (count_unique_senders_by_hash messages_with_current image_hash
      cfg.image_hash_threshold).1
  else 1

/-- Decision pipeline of on_group_message from record creation onward
(main.py 1288-1390): build the record, match against the snapshot that
includes it (excluding the most recent entry), run the sender-count,
self-repost and cooldown gates, optionally consult the judgment call, append
exactly once, and report whether a reminder was emitted. -/
noncomputable def on_group_message (cfg : Config) (dayOf : ℚ → Int)
    (messages : List Msg) (uid sender_id sender_name content : String)
    (now : ℚ) (embedding : List ℝ) (has_image : Bool)
    (image_hash : List (Fin 16)) (last_load : ℚ) (judge : JudgeCall) :
    PipeResult :=
  let msg : Msg :=
    mkRecord uid sender_id sender_name content now embedding has_image
      image_hash
  let messages_with_current := messages ++ [msg]
  let appended := fun (reminded : Bool) =>
    let r := append_message dayOf (some (CacheEntry.mk messages last_load)) now msg
    PipeResult.mk r.1.messages r.2 reminded
  match select_match messages_with_current embedding image_hash
      cfg.similarity_threshold cfg.image_hash_threshold with
  | none => appended false
  | some (matched_msg, _, match_type) =>
    let unique_count :=
      pipeline_unique_count messages_with_current embedding image_hash cfg
        match_type
    if sender_id = matched_msg.sender_id then appended false
    else if unique_count < cfg.min_unique_senders then appended false
    else if now - matched_msg.timestamp < cfg.cooldown_seconds then
      appended false
    else
      let should_remind :=
        if cfg.enable_llm_judge then judge_remind judge else true
      appended should_remind

/-- Hamming distance between the low bitLength bits of two natural numbers,
the reference notion of the specification. -/
def hammingDistance (bitLength : Nat) (n1 n2 : Nat) : Nat :=
  ((List.range bitLength).filter
    (fun j => n1.testBit j ≠ n2.testBit j)).length

lemma length_toBitsMSB (w n : Nat) : (toBitsMSB w n).length = w := by
  induction w generalizing n with
  | zero => rfl
  | succ w ih => simp [toBitsMSB, ih]

lemma count_diff_toBitsMSB (w n1 n2 : Nat) :
    (List.zipWith (fun c1 c2 => c1 != c2) (toBitsMSB w n1)
      (toBitsMSB w n2)).count true = hammingDistance w n1 n2 := by
  induction w with
  | zero => rfl
  | succ w ih =>
    simp only [toBitsMSB, List.zipWith_cons_cons, List.count_cons, ih,
      hammingDistance, List.range_succ, List.filter_append]
    by_cases h : n1.testBit w = n2.testBit w
    · simp [h, hammingDistance]
    · simp [h, hammingDistance]

lemma zipWith_bne_self (l : List Bool) :
    (List.zipWith (fun c1 c2 => c1 != c2) l l).count true = 0 := by
  induction l with
  | nil => rfl
  | cons a t ih =>
    simp only [List.zipWith_cons_cons, bne_self_eq_false, List.count_cons, ih]
    simp

lemma zipWith_bne_map_not (l : List Bool) :
    (List.zipWith (fun c1 c2 => c1 != c2) l (l.map not)).count true =
      l.length := by
  induction l with
  | nil => rfl
  | cons a t ih =>
    cases a <;>
      simp [List.zipWith_cons_cons, List.count_cons, ih]

lemma hash_similarity_formula (h1 h2 : List (Fin 16)) (hn1 : h1 ≠ [])
    (hn2 : h2 ≠ []) (hlen : h1.length = h2.length) :
    hash_similarity h1 h2 =
      1 - (hammingDistance (h1.length * 4) (hexVal h1) (hexVal h2) : ℚ) /
        ((h1.length * 4 : Nat) : ℚ) := by
  simp only [hash_similarity]
  rw [if_neg (by simp [hn1, hn2, hlen, List.isEmpty_iff]), ← hlen,
    count_diff_toBitsMSB, length_toBitsMSB]

lemma hash_similarity_self (h : List (Fin 16)) (hn : h ≠ []) :
    hash_similarity h h = 1 := by
  simp only [hash_similarity]
  rw [if_neg (by simp [hn, List.isEmpty_iff]), zipWith_bne_self]
  simp

lemma hash_similarity_compl (h1 h2 : List (Fin 16)) (hn1 : h1 ≠ [])
    (hlen : h1.length = h2.length)
    (hcomp : toBitsMSB (h1.length * 4) (hexVal h2) =
      (toBitsMSB (h1.length * 4) (hexVal h1)).map not) :
    hash_similarity h1 h2 = 0 := by
  have hn2 : h2 ≠ [] := by
    intro h2nil
    rw [h2nil] at hlen
    exact hn1 (List.eq_nil_of_length_eq_zero (by simpa using hlen))
  have hlen0 : h1.length ≠ 0 :=
    fun h0 => hn1 (List.eq_nil_of_length_eq_zero h0)
  simp only [hash_similarity]
  rw [if_neg (by simp [hn1, hn2, hlen, List.isEmpty_iff]), ← hlen, hcomp,
    zipWith_bne_map_not, length_toBitsMSB]
  rw [div_self (by exact_mod_cast Nat.mul_ne_zero hlen0 (by norm_num))]
  norm_num

lemma hash_similarity_length_ne (h1 h2 : List (Fin 16))
    (hlen : h1.length ≠ h2.length) : hash_similarity h1 h2 = 0 := by
  simp only [hash_similarity]
  rw [if_pos (Or.inr (Or.inr hlen))]

/-- C9: on nonempty equal-length hex hashes, _hash_similarity equals
1 - Hamming distance / bit length; it is 1.0 on identical hashes, 0.0 on
bit-complementary hashes, and 0.0 whenever the lengths differ.  Hashes are
outputs of the image hasher, hence nonempty hex-digit strings. -/
theorem c9_hash_similarity (h1 h2 h : List (Fin 16)) :
    (h1 ≠ [] → h2 ≠ [] → h1.length = h2.length →
      hash_similarity h1 h2 =
        1 - (hammingDistance (h1.length * 4) (hexVal h1) (hexVal h2) : ℚ) /
          ((h1.length * 4 : Nat) : ℚ)) ∧
    (h ≠ [] → hash_similarity h h = 1) ∧
    (h1 ≠ [] → h1.length = h2.length →
      toBitsMSB (h1.length * 4) (hexVal h2) =
        (toBitsMSB (h1.length * 4) (hexVal h1)).map not →
      hash_similarity h1 h2 = 0) ∧
    (h1.length ≠ h2.length → hash_similarity h1 h2 = 0) :=
  ⟨hash_similarity_formula h1 h2, hash_similarity_self h,
    hash_similarity_compl h1 h2, hash_similarity_length_ne h1 h2⟩

theorem c9_hash_similarity_witness :
    hash_similarity [(15 : Fin 16)] [(0 : Fin 16)] =
      1 - (hammingDistance 4 (hexVal [(15 : Fin 16)])
        (hexVal [(0 : Fin 16)]) : ℚ) / ((4 : Nat) : ℚ) ∧
    hash_similarity [(5 : Fin 16)] [(5 : Fin 16)] = 1 ∧
    hash_similarity [(15 : Fin 16)] [(0 : Fin 16)] = 0 ∧
    hash_similarity [(15 : Fin 16)] [] = 0 := by
  refine ⟨?_, ?_, ?_, ?_⟩
  · exact (c9_hash_similarity [15] [0] [5]).1 (by decide) (by decide) rfl
  · exact (c9_hash_similarity [15] [0] [5]).2.1 (by decide)
  · exact (c9_hash_similarity [15] [0] [5]).2.2.1 (by decide) rfl (by decide)
  · exact (c9_hash_similarity [15] [] [5]).2.2.2 (by decide)

/-- Concrete local-day function used by witnesses: the calendar day of a
timestamp in a fixed timezone, one abstraction of date.fromtimestamp. -/
def dayFloor (t : ℚ) : Int := t.num / ((t.den : Int) * 86400)

/-- Concrete records used by witnesses. -/
def msgOld : Msg :=
  { id := "id-old", sender_id := "alice", sender_name := "Alice",
    content := "hello", timestamp := 5, embedding := [], has_image := false,
    image_hash := [] }

def msgNew : Msg :=
  { id := "id-new", sender_id := "bob", sender_name := "Bob",
    content := "hello again", timestamp := 650000, embedding := [],
    has_image := false, image_hash := [] }

/-- C6: _load_messages returns the cached sequence unchanged and without any
disk access when called on the same calendar day as the last load; on the
first call after a day rollover it keeps exactly the cached records with
timestamp strictly greater than now - retention_days * 86400, stores them
back with the load timestamp updated to now, and consequently every record
older than the retention horizon is absent from the result. -/
theorem c6_load_messages (retention_days : ℚ) (dayOf : ℚ → Int)
    (entry : CacheEntry) (now : ℚ) (disk : List Msg) :
    (dayOf entry.last_load = dayOf now →
      load_messages retention_days dayOf (some entry) now disk =
        (entry.messages, some entry, false)) ∧
    (dayOf entry.last_load ≠ dayOf now →
      load_messages retention_days dayOf (some entry) now disk =
        (entry.messages.filter
            (fun m => m.timestamp > now - retention_days * 86400),
         some (CacheEntry.mk
            (entry.messages.filter
              (fun m => m.timestamp > now - retention_days * 86400)) now),
         false) ∧
      ∀ m ∈ (load_messages retention_days dayOf (some entry) now disk).1,
        now - retention_days * 86400 < m.timestamp) := by
  constructor
  · intro h
    simp [load_messages, h]
  · intro h
    constructor
    · simp [load_messages, h]
    · intro m hm
      simp only [load_messages, if_neg h] at hm
      exact of_decide_eq_true (List.mem_filter.mp hm).2

theorem c6_load_messages_witness :
    load_messages 1 dayFloor (some (CacheEntry.mk [msgOld, msgNew] 5)) 6 [] =
      ([msgOld, msgNew], some (CacheEntry.mk [msgOld, msgNew] 5), false) ∧
    (load_messages 1 dayFloor (some (CacheEntry.mk [msgOld, msgNew] 5))
      700000 []).1 = [msgNew] := by
  constructor
  · exact (c6_load_messages 1 dayFloor (CacheEntry.mk [msgOld, msgNew] 5)
      6 []).1 (by decide)
  · have h := (c6_load_messages 1 dayFloor (CacheEntry.mk [msgOld, msgNew] 5)
      700000 []).2 (by decide)
    rw [h.1]
    norm_num [List.filter_cons, msgOld, msgNew]

/-- C7: _append_message appends the record at the end of the cached sequence,
creating the cache entry when absent, and triggers a durability write exactly
when the number of cached records falling on the new record's calendar day
equals 1 or is a multiple of 10. -/
theorem c7_append_message (dayOf : ℚ → Int) (cache : Option CacheEntry)
    (now : ℚ) (m : Msg) :
    (append_message dayOf cache now m).1.messages =
      (cache.getD (CacheEntry.mk [] now)).messages ++ [m] ∧
    ((append_message dayOf cache now m).2 = true ↔
      (((cache.getD (CacheEntry.mk [] now)).messages ++ [m]).countP
          (fun x => dayOf x.timestamp = dayOf m.timestamp) = 1 ∨
        ((cache.getD (CacheEntry.mk [] now)).messages ++ [m]).countP
          (fun x => dayOf x.timestamp = dayOf m.timestamp) % 10 = 0)) := by
  constructor
  · rfl
  · simp [append_message, List.countP_eq_length_filter]

theorem c7_append_message_witness :
    (append_message dayFloor none 0 msgOld).1.messages = [msgOld] ∧
    (append_message dayFloor none 0 msgOld).2 = true := by
  constructor
  · exact (c7_append_message dayFloor none 0 msgOld).1
  · exact (c7_append_message dayFloor none 0 msgOld).2.mpr (Or.inl (by decide))

lemma snd_mem_of_mem_enum {l : List Msg} {p : Nat × Msg} (h : p ∈ l.enum) :
    p.2 ∈ l := by
  have h' := List.mem_enumFrom (by simpa [List.enum] using h)
  have hlt : p.1 < l.length := by simpa using h'.2.1
  have := h'.2.2
  simp only [Nat.sub_zero] at this
  rw [this]
  exact List.getElem_mem hlt

lemma fbmStep_fst_eq (e : List ℝ) (θ : ℝ) (acc : Option Msg × Int × ℝ)
    (p : Nat × Msg) (m : Msg) (h : (fbmStep e θ acc p).1 = some m) :
    acc.1 = some m ∨ p.2 = m := by
  unfold fbmStep at h
  by_cases h1 : p.2.embedding.isEmpty
  · rw [if_pos h1] at h; exact Or.inl h
  rw [if_neg h1] at h
  by_cases h2 : p.2.embedding.length ≠ e.length
  · rw [if_pos h2] at h; exact Or.inl h
  rw [if_neg h2] at h
  by_cases h3 : cosine_similarity e p.2.embedding > acc.2.2
  · rw [if_pos h3] at h
    by_cases h4 : cosine_similarity e p.2.embedding ≥ θ
    · rw [if_pos h4] at h
      exact Or.inr (Option.some.inj h)
    · rw [if_neg h4] at h
      exact Or.inl h
  · rw [if_neg h3] at h
    exact Or.inl h

lemma fbm_foldl_mem (e : List ℝ) (θ : ℝ) (L : List (Nat × Msg)) :
    ∀ (acc : Option Msg × Int × ℝ) (m : Msg),
      (L.foldl (fbmStep e θ) acc).1 = some m →
      acc.1 = some m ∨ ∃ p ∈ L, p.2 = m := by
  induction L with
  | nil => intro acc m h; exact Or.inl h
  | cons x t ih =>
    intro acc m h
    rcases ih (fbmStep e θ acc x) m h with h' | ⟨p, hp, hpm⟩
    · rcases fbmStep_fst_eq e θ acc x m h' with h'' | h''
      · exact Or.inl h''
      · exact Or.inr ⟨x, by simp, h''⟩
    · exact Or.inr ⟨p, by simp [hp], hpm⟩

lemma fsiStep_fst_eq (ch : List (Fin 16)) (θ : ℚ) (acc : Option Msg × Int × ℚ)
    (p : Nat × Msg) (m : Msg) (h : (fsiStep ch θ acc p).1 = some m) :
    acc.1 = some m ∨ p.2 = m := by
  unfold fsiStep at h
  by_cases h1 : p.2.image_hash.isEmpty
  · rw [if_pos h1] at h; exact Or.inl h
  rw [if_neg h1] at h
  by_cases h3 : hash_similarity ch p.2.image_hash > acc.2.2
  · rw [if_pos h3] at h
    by_cases h4 : hash_similarity ch p.2.image_hash ≥ θ
    · rw [if_pos h4] at h
      exact Or.inr (Option.some.inj h)
    · rw [if_neg h4] at h
      exact Or.inl h
  · rw [if_neg h3] at h
    exact Or.inl h

lemma fsi_foldl_mem (ch : List (Fin 16)) (θ : ℚ) (L : List (Nat × Msg)) :
    ∀ (acc : Option Msg × Int × ℚ) (m : Msg),
      (L.foldl (fsiStep ch θ) acc).1 = some m →
      acc.1 = some m ∨ ∃ p ∈ L, p.2 = m := by
  induction L with
  | nil => intro acc m h; exact Or.inl h
  | cons x t ih =>
    intro acc m h
    rcases ih (fsiStep ch θ acc x) m h with h' | ⟨p, hp, hpm⟩
    · rcases fsiStep_fst_eq ch θ acc x m h' with h'' | h''
      · exact Or.inl h''
      · exact Or.inr ⟨x, by simp, h''⟩
    · exact Or.inr ⟨p, by simp [hp], hpm⟩

lemma find_best_match_mem (msgs : List Msg) (c : Msg) (e : List ℝ) (θ : ℝ)
    (m : Msg) (h : (find_best_match (msgs ++ [c]) e θ 1).1 = some m) :
    m ∈ msgs := by
  unfold find_best_match at h
  simp only [Nat.lt_irrefl, if_pos Nat.zero_lt_one, List.length_append,
    List.length_singleton, Nat.add_sub_cancel, List.take_left] at h
  rcases fbm_foldl_mem e θ msgs.enum (none, -1, 0) m h with h' | ⟨p, hp, hpm⟩
  · cases h'
  · exact hpm ▸ snd_mem_of_mem_enum hp

lemma find_similar_image_mem (msgs : List Msg) (c : Msg)
    (ch : List (Fin 16)) (θ : ℚ) (m : Msg)
    (h : (find_similar_image (msgs ++ [c]) ch θ 1).1 = some m) : m ∈ msgs := by
  unfold find_similar_image at h
  simp only [Nat.lt_irrefl, if_pos Nat.zero_lt_one, List.length_append,
    List.length_singleton, Nat.add_sub_cancel, List.take_left] at h
  rcases fsi_foldl_mem ch θ msgs.enum (none, -1, 0) m h with h' | ⟨p, hp, hpm⟩
  · cases h'
  · exact hpm ▸ snd_mem_of_mem_enum hp

lemma on_group_message_messages (cfg : Config) (dayOf : ℚ → Int)
    (messages : List Msg) (uid sender_id sender_name content : String)
    (now : ℚ) (embedding : List ℝ) (has_image : Bool)
    (image_hash : List (Fin 16)) (last_load : ℚ) (judge : JudgeCall) :
    (on_group_message cfg dayOf messages uid sender_id sender_name content
        now embedding has_image image_hash last_load judge).messages =
      messages ++ [mkRecord uid sender_id sender_name content now embedding
        has_image image_hash] := by
  rcases hsel : select_match
      (messages ++ [mkRecord uid sender_id sender_name content now embedding
        has_image image_hash]) embedding image_hash cfg.similarity_threshold
      cfg.image_hash_threshold with _ | ⟨mm, mi, mt⟩
  · simp only [on_group_message, hsel]
    rfl
  · simp only [on_group_message, hsel]
    split_ifs <;> rfl

/-- C2: on every path the pipeline appends the new record exactly once, at the
end of the cached sequence, and matching (run with exclude_recent = 1 over the
snapshot messages ++ [record]) can only return a record of the prior history,
never the new record at the excluded final position. -/
theorem c2_append_once_no_self_match (cfg : Config) (dayOf : ℚ → Int)
    (messages : List Msg) (uid sender_id sender_name content : String)
    (now : ℚ) (embedding : List ℝ) (has_image : Bool)
    (image_hash : List (Fin 16)) (last_load : ℚ) (judge : JudgeCall) :
    (on_group_message cfg dayOf messages uid sender_id sender_name content
        now embedding has_image image_hash last_load judge).messages =
      messages ++ [mkRecord uid sender_id sender_name content now embedding
        has_image image_hash] ∧
    (∀ m, (find_best_match (messages ++ [mkRecord uid sender_id sender_name
        content now embedding has_image image_hash]) embedding
        cfg.similarity_threshold 1).1 = some m → m ∈ messages) ∧
    (∀ m, (find_similar_image (messages ++ [mkRecord uid sender_id sender_name
        content now embedding has_image image_hash]) image_hash
        cfg.image_hash_threshold 1).1 = some m → m ∈ messages) :=
  ⟨on_group_message_messages cfg dayOf messages uid sender_id sender_name
      content now embedding has_image image_hash last_load judge,
    fun m h => find_best_match_mem messages _ embedding
      cfg.similarity_threshold m h,
    fun m h => find_similar_image_mem messages _ image_hash
      cfg.image_hash_threshold m h⟩

/-- A one-digit image hash and concrete records for pipeline witnesses. -/
def hashF : List (Fin 16) := [15]

def msgA : Msg := mkRecord "id-a" "alice" "Alice" "pic" 100 [] true hashF

def msgB : Msg := mkRecord "id-b" "bob" "Bob" "pic" 200 [] true hashF

def recCarol : Msg := mkRecord "id-c" "carol" "Carol" "pic" 10000 [] true hashF

lemma fsiStep_msgA :
    fsiStep hashF (9/10) (none, -1, 0) (0, msgA) = (some msgA, 0, 1) := by
  unfold fsiStep
  simp only [msgA, mkRecord]
  rw [hash_similarity_self hashF (by decide)]
  norm_num [hashF]

lemma fsi_eval_one_scan (c : Msg) :
    find_similar_image [msgA, c] hashF (9/10) 1 = (some msgA, 0, 1) := by
  show fsiStep hashF (9/10) (none, -1, 0) (0, msgA) = (some msgA, 0, 1)
  exact fsiStep_msgA

lemma fsi_eval_two_scan (c : Msg) :
    find_similar_image [msgA, msgB, c] hashF (9/10) 1 = (some msgA, 0, 1) := by
  show fsiStep hashF (9/10)
    (fsiStep hashF (9/10) (none, -1, 0) (0, msgA)) (1, msgB) =
      (some msgA, 0, 1)
  rw [fsiStep_msgA]
  unfold fsiStep
  simp only [msgB, mkRecord]
  rw [hash_similarity_self hashF (by decide)]
  norm_num [hashF]

lemma select_eval_one (c : Msg) (t : ℝ) :
    select_match [msgA, c] [] hashF t (9/10) =
      some (msgA, 0, MatchType.image_hash) := by
  unfold select_match
  rw [fsi_eval_one_scan]
  rfl

lemma select_eval_two (c : Msg) (t : ℝ) :
    select_match [msgA, msgB, c] [] hashF t (9/10) =
      some (msgA, 0, MatchType.image_hash) := by
  unfold select_match
  rw [fsi_eval_two_scan]
  rfl

theorem c2_witness :
    (on_group_message (Config.mk 0.85 (9/10) 3 100 false) dayFloor [msgA]
      "id-c" "carol" "Carol" "pic" 10000 [] true hashF 100
      JudgeCall.callFailed).messages =
      [msgA, mkRecord "id-c" "carol" "Carol" "pic" 10000 [] true hashF] ∧
    msgA ∈ [msgA] := by
  constructor
  · exact (c2_append_once_no_self_match (Config.mk 0.85 (9/10) 3 100 false)
      dayFloor [msgA] "id-c" "carol" "Carol" "pic" 10000 [] true hashF 100
      JudgeCall.callFailed).1
  · exact (c2_append_once_no_self_match (Config.mk 0.85 (9/10) 3 100 false)
      dayFloor [msgA] "id-c" "carol" "Carol" "pic" 10000 [] true hashF 100
      JudgeCall.callFailed).2.2 msgA
      (congrArg Prod.fst (fsi_eval_one_scan recCarol))

/-- C5: whenever a match is selected and the new message's sender_id equals
the matched record's sender_id, the pipeline resolves silent - the record is
appended but no reminder is emitted - for every configuration (hence every
minimum sender count and cooldown) and every elapsed time. -/
theorem c5_self_repost_silent (cfg : Config) (dayOf : ℚ → Int)
    (messages : List Msg) (uid sender_id sender_name content : String)
    (now : ℚ) (embedding : List ℝ) (has_image : Bool)
    (image_hash : List (Fin 16)) (last_load : ℚ) (judge : JudgeCall)
    (matched_msg : Msg) (mi : Int) (mt : MatchType)
    (hsel : select_match (messages ++ [mkRecord uid sender_id sender_name
        content now embedding has_image image_hash]) embedding image_hash
        cfg.similarity_threshold cfg.image_hash_threshold =
      some (matched_msg, mi, mt))
    (hsame : sender_id = matched_msg.sender_id) :
    (on_group_message cfg dayOf messages uid sender_id sender_name content
        now embedding has_image image_hash last_load judge).reminded = false ∧
    (on_group_message cfg dayOf messages uid sender_id sender_name content
        now embedding has_image image_hash last_load judge).messages =
      messages ++ [mkRecord uid sender_id sender_name content now embedding
        has_image image_hash] := by
  refine ⟨?_, on_group_message_messages cfg dayOf messages uid sender_id
    sender_name content now embedding has_image image_hash last_load judge⟩
  simp only [on_group_message, hsel]
  rw [if_pos hsame]

theorem c5_witness :
    (on_group_message (Config.mk 0.85 (9/10) 3 100 true) dayFloor [msgA]
      "id-x" "alice" "Al" "pic" 10000 [] true hashF 100
      JudgeCall.emptyCompletion).reminded = false := by
  exact (c5_self_repost_silent (Config.mk 0.85 (9/10) 3 100 true) dayFloor
    [msgA] "id-x" "alice" "Al" "pic" 10000 [] true hashF 100
    JudgeCall.emptyCompletion msgA 0 MatchType.image_hash
    (select_eval_one (mkRecord "id-x" "alice" "Al" "pic" 10000 [] true hashF)
      0.85) rfl).1

lemma count_hash_eval :
    count_unique_senders_by_hash [msgA, msgB, recCarol] hashF (9/10) =
      (3, ["alice", "bob", "carol"]) := by
  unfold count_unique_senders_by_hash
  simp only [List.foldl_cons, List.foldl_nil, msgA, msgB, recCarol, mkRecord]
  simp only [hash_similarity_self hashF (by decide)]
  norm_num [hashF]
  decide

lemma puc_eval :
    pipeline_unique_count [msgA, msgB, recCarol] [] hashF
      (Config.mk 0.85 (9/10) 3 100 false) MatchType.image_hash = 3 := by
  unfold pipeline_unique_count
  rw [if_neg (by simp), if_pos ⟨rfl, rfl⟩]
  show (count_unique_senders_by_hash [msgA, msgB, recCarol] hashF (9/10)).1 = 3
  rw [count_hash_eval]

/-- C4 (amended): every provider failure (no provider configured, provider not
found, call exception, empty completion) and every completion that neither
parses as JSON nor contains the literal should_remind-true substring yields
should_remind = false; with LLM judgment disabled by configuration the
pipeline emits the reminder whenever the judgment gate is reached; and the
pipeline never aborts - the record is appended on every path. -/
theorem c4_judgment_gate (cfg : Config) (dayOf : ℚ → Int)
    (messages : List Msg) (uid sender_id sender_name content : String)
    (now : ℚ) (embedding : List ℝ) (has_image : Bool)
    (image_hash : List (Fin 16)) (last_load : ℚ) (judge : JudgeCall)
    (matched_msg : Msg) (mi : Int) (mt : MatchType) :
    (judge_remind JudgeCall.noProviderId = false ∧
      judge_remind JudgeCall.providerMissing = false ∧
      judge_remind JudgeCall.callFailed = false ∧
      judge_remind JudgeCall.emptyCompletion = false ∧
      judge_remind (JudgeCall.completion none false) = false) ∧
    (cfg.enable_llm_judge = false →
      select_match (messages ++ [mkRecord uid sender_id sender_name content
          now embedding has_image image_hash]) embedding image_hash
          cfg.similarity_threshold cfg.image_hash_threshold =
        some (matched_msg, mi, mt) →
      sender_id ≠ matched_msg.sender_id →
      ¬ pipeline_unique_count (messages ++ [mkRecord uid sender_id
          sender_name content now embedding has_image image_hash]) embedding
          image_hash cfg mt < cfg.min_unique_senders →
      ¬ now - matched_msg.timestamp < cfg.cooldown_seconds →
      (on_group_message cfg dayOf messages uid sender_id sender_name content
          now embedding has_image image_hash last_load judge).reminded =
        true) ∧
    (on_group_message cfg dayOf messages uid sender_id sender_name content
        now embedding has_image image_hash last_load judge).messages =
      messages ++ [mkRecord uid sender_id sender_name content now embedding
        has_image image_hash] := by
  refine ⟨⟨rfl, rfl, rfl, rfl, rfl⟩, ?_, on_group_message_messages cfg dayOf
    messages uid sender_id sender_name content now embedding has_image
    image_hash last_load judge⟩
  intro hen hsel hsender hcount hcool
  simp only [on_group_message, hsel]
  rw [if_neg hsender, if_neg hcount, if_neg hcool, hen]
  rfl

/-- C4 counterexample: a judgment completion that fails JSON parsing but
contains the literal should_remind-true substring makes _judge_remind return
True, refuting the reading that every JSON-unparsable response yields
should_remind = false. -/
theorem c4_counterexample :
    judge_remind (JudgeCall.completion none true) = true := rfl

theorem c4_witness :
    (on_group_message (Config.mk 0.85 (9/10) 3 100 false) dayFloor
      [msgA, msgB] "id-c" "carol" "Carol" "pic" 10000 [] true hashF 100
      JudgeCall.callFailed).reminded = true ∧
    judge_remind JudgeCall.callFailed = false := by
  constructor
  · exact (c4_judgment_gate (Config.mk 0.85 (9/10) 3 100 false) dayFloor
      [msgA, msgB] "id-c" "carol" "Carol" "pic" 10000 [] true hashF 100
      JudgeCall.callFailed msgA 0 MatchType.image_hash).2.1 rfl
      (select_eval_two recCarol 0.85) (by decide)
      (by
        show ¬ pipeline_unique_count [msgA, msgB, recCarol] [] hashF
          (Config.mk 0.85 (9/10) 3 100 false) MatchType.image_hash < 3
        rw [puc_eval]
        decide)
      (by norm_num [msgA, mkRecord])
  · exact (c4_judgment_gate (Config.mk 0.85 (9/10) 3 100 false) dayFloor
      [msgA, msgB] "id-c" "carol" "Carol" "pic" 10000 [] true hashF 100
      JudgeCall.callFailed msgA 0 MatchType.image_hash).1.2.2.1

/-- C1 (amended): when both a threshold-qualifying text match and a
threshold-qualifying image match exist, the image match is selected exactly
when the image-matched record is strictly earlier than the text-matched
record; otherwise (including equal timestamps) the text match is kept. -/
theorem c1_match_precedence (mwc : List Msg) (embedding : List ℝ)
    (image_hash : List (Fin 16)) (tθ : ℝ) (iθ : ℚ) (tm : Msg) (ti : Int)
    (ts : ℝ) (im : Msg) (ii : Int) (isim : ℚ)
    (hne : embedding.isEmpty = false) (hni : image_hash.isEmpty = false)
    (htm : find_best_match mwc embedding tθ 1 = (some tm, ti, ts))
    (him : find_similar_image mwc image_hash iθ 1 = (some im, ii, isim)) :
    select_match mwc embedding image_hash tθ iθ =
      if im.timestamp < tm.timestamp then some (im, ii, MatchType.image_hash)
      else some (tm, ti, MatchType.embedding) := by
  unfold select_match
  rw [htm, him, hne, hni]
  rfl

lemma cos_one_one : cosine_similarity [(1 : ℝ)] [(1 : ℝ)] = 1 / (1 + 1e-9) := by
  unfold cosine_similarity
  rw [if_neg (by simp)]
  simp only [dotL, sumSq, List.zipWith_cons_cons, List.zipWith_nil_right,
    List.map_cons, List.map_nil, List.sum_cons, List.sum_nil, mul_one,
    add_zero]
  rw [Real.sqrt_one]
  norm_num

/-- Records for the C1 scenario: a text-matching record at time ts, an
image-matching record at time 100, and a current message carrying both
fingerprints. -/
def mkT (ts : ℚ) : Msg :=
  mkRecord "id-t" "alice" "Alice" "text" ts [(1 : ℝ)] false []

def mI : Msg := mkRecord "id-i" "bob" "Bob" "img" 100 [] true hashF

def recBoth : Msg :=
  mkRecord "id-r" "carol" "Carol" "both" 10000 [(1 : ℝ)] true hashF

lemma fbm_step_mkT (ts : ℚ) :
    fbmStep [(1 : ℝ)] 0.85 (none, -1, 0) (0, mkT ts) =
      (some (mkT ts), 0, cosine_similarity [1] [1]) := by
  unfold fbmStep
  simp only [mkT, mkRecord]
  norm_num [cos_one_one]

lemma fbm_eval_c1 (ts : ℚ) (c : Msg) :
    find_best_match [mkT ts, mI, c] [1] 0.85 1 =
      (some (mkT ts), 0, cosine_similarity [1] [1]) := by
  show fbmStep [(1 : ℝ)] 0.85
      (fbmStep [(1 : ℝ)] 0.85 (none, -1, 0) (0, mkT ts)) (1, mI) = _
  rw [fbm_step_mkT]
  unfold fbmStep
  simp [mI, mkRecord]

lemma fsi_eval_c1 (ts : ℚ) (c : Msg) :
    find_similar_image [mkT ts, mI, c] hashF (9/10) 1 = (some mI, 1, 1) := by
  show fsiStep hashF (9/10)
      (fsiStep hashF (9/10) (none, -1, 0) (0, mkT ts)) (1, mI) = _
  have h0 : fsiStep hashF (9/10) (none, -1, 0) (0, mkT ts) = (none, -1, 0) := by
    unfold fsiStep
    simp [mkT, mkRecord]
  rw [h0]
  unfold fsiStep
  simp only [mI, mkRecord]
  rw [hash_similarity_self hashF (by decide)]
  norm_num [hashF]

/-- C1 counterexample: with both matches qualifying and equal timestamps, the
code keeps the text match, while the claim gives the image match precedence
whenever the text match is not strictly earlier. -/
theorem c1_counterexample :
    select_match [mkT 100, mI, recBoth] [1] hashF 0.85 (9/10) =
      some (mkT 100, 0, MatchType.embedding) ∧
    (find_best_match [mkT 100, mI, recBoth] [1] 0.85 1).1 = some (mkT 100) ∧
    (find_similar_image [mkT 100, mI, recBoth] hashF (9/10) 1).1 = some mI ∧
    (mkT 100).timestamp = mI.timestamp ∧
    mkT 100 ≠ mI := by
  refine ⟨?_, ?_, ?_, rfl, ?_⟩
  · unfold select_match
    rw [fbm_eval_c1, fsi_eval_c1]
    norm_num [mkT, mI, mkRecord, hashF]
  · rw [fbm_eval_c1]
  · rw [fsi_eval_c1]
  · intro h
    exact absurd (congrArg Msg.sender_id h) (by decide)

theorem c1_witness :
    select_match [mkT 300, mI, recBoth] [1] hashF 0.85 (9/10) =
      some (mI, 1, MatchType.image_hash) ∧
    select_match [mkT 100, mI, recBoth] [1] hashF 0.85 (9/10) =
      some (mkT 100, 0, MatchType.embedding) := by
  constructor
  · have h := c1_match_precedence [mkT 300, mI, recBoth] [1] hashF 0.85
      (9/10) (mkT 300) 0 (cosine_similarity [1] [1]) mI 1 1 rfl rfl
      (fbm_eval_c1 300 recBoth) (fsi_eval_c1 300 recBoth)
    rw [h, if_pos (by norm_num [mkT, mI, mkRecord])]
  · have h := c1_match_precedence [mkT 100, mI, recBoth] [1] hashF 0.85
      (9/10) (mkT 100) 0 (cosine_similarity [1] [1]) mI 1 1 rfl rfl
      (fbm_eval_c1 100 recBoth) (fsi_eval_c1 100 recBoth)
    rw [h, if_neg (by norm_num [mkT, mI, mkRecord])]

lemma sumSq_nonneg (v : List ℝ) : 0 ≤ sumSq v := by
  apply List.sum_nonneg
  intro x hx
  obtain ⟨y, _, rfl⟩ := List.mem_map.mp hx
  exact mul_self_nonneg y

lemma dotL_cons (x y : ℝ) (as bs : List ℝ) :
    dotL (x :: as) (y :: bs) = x * y + dotL as bs := by
  simp [dotL]

lemma sumSq_cons (x : ℝ) (as : List ℝ) :
    sumSq (x :: as) = x * x + sumSq as := by
  simp [sumSq]

lemma dotL_sq_le (a : List ℝ) : ∀ b : List ℝ,
    (dotL a b) ^ 2 ≤ sumSq a * sumSq b := by
  induction a with
  | nil =>
    intro b
    have : dotL [] b = 0 := by simp [dotL]
    rw [this]
    have := sumSq_nonneg b
    simp [sumSq]
  | cons x as ih =>
    intro b
    cases b with
    | nil =>
      have : dotL (x :: as) [] = 0 := by simp [dotL]
      rw [this]
      have h1 := sumSq_nonneg (x :: as)
      simp [sumSq]
    | cons y bs =>
      have hd := ih bs
      have hp := sumSq_nonneg as
      have hq := sumSq_nonneg bs
      rw [dotL_cons, sumSq_cons, sumSq_cons]
      rcases eq_or_lt_of_le hq with hq0 | hqpos
      · have hd0 : dotL as bs = 0 := by nlinarith [sq_nonneg (dotL as bs)]
        rw [hd0, ← hq0]
        nlinarith [mul_nonneg hp (mul_self_nonneg y)]
      · nlinarith [sq_nonneg (x * sumSq bs - y * dotL as bs),
          mul_nonneg (sub_nonneg.mpr hd)
            (add_nonneg (mul_self_nonneg y) hq), hqpos]

lemma cosine_similarity_bounds (v1 v2 : List ℝ) :
    -1 ≤ cosine_similarity v1 v2 ∧ cosine_similarity v1 v2 ≤ 1 := by
  unfold cosine_similarity
  split_ifs with hguard
  · norm_num
  · have hn1 : 0 ≤ Real.sqrt (sumSq v1) := Real.sqrt_nonneg _
    have hn2 : 0 ≤ Real.sqrt (sumSq v2) := Real.sqrt_nonneg _
    have habs : |dotL v1 v2| ≤ Real.sqrt (sumSq v1) * Real.sqrt (sumSq v2) := by
      rw [← Real.sqrt_sq_eq_abs, ← Real.sqrt_mul (sumSq_nonneg v1)]
      exact Real.sqrt_le_sqrt (dotL_sq_le v1 v2)
    have heps : (0 : ℝ) < 1e-9 := by norm_num
    have hden : 0 < Real.sqrt (sumSq v1) * Real.sqrt (sumSq v2) + 1e-9 := by
      nlinarith [mul_nonneg hn1 hn2]
    have hub := (abs_le.mp habs).2
    have hlb := (abs_le.mp habs).1
    constructor
    · rw [le_div_iff hden]
      nlinarith
    · rw [div_le_one hden]
      nlinarith

lemma dotL_self (v : List ℝ) : dotL v v = sumSq v := by
  induction v with
  | nil => rfl
  | cons x t ih => rw [dotL_cons, sumSq_cons, ih]

lemma cosine_self (v : List ℝ) (hne : v ≠ []) :
    cosine_similarity v v = sumSq v / (sumSq v + 1e-9) := by
  unfold cosine_similarity
  rw [if_neg (by simp [hne, List.isEmpty_iff]), dotL_self,
    Real.mul_self_sqrt (sumSq_nonneg v)]

/-- C8 (amended): _cosine_similarity returns 0.0 on an empty vector or a
dimensionality mismatch without raising; it always lies in [-1, 1]; and the
self-similarity cosine(v, v) = s / (s + 1e-9) (s the squared norm) is within
1e-9 of 1.0 for every vector whose squared norm is at least 1 - for vectors
with squared norm comparable to the 1e-9 guard it falls far below 1. -/
theorem c8_cosine_similarity (v1 v2 v : List ℝ) :
    (v1 = [] ∨ v2 = [] ∨ v1.length ≠ v2.length →
      cosine_similarity v1 v2 = 0) ∧
    (-1 ≤ cosine_similarity v1 v2 ∧ cosine_similarity v1 v2 ≤ 1) ∧
    (1 ≤ sumSq v → |cosine_similarity v v - 1| ≤ 1e-9) := by
  refine ⟨?_, cosine_similarity_bounds v1 v2, ?_⟩
  · intro h
    unfold cosine_similarity
    rw [if_pos ?_]
    rcases h with h | h | h
    · exact Or.inl (by simp [h])
    · exact Or.inr (Or.inl (by simp [h]))
    · exact Or.inr (Or.inr h)
  · intro hs
    have hne : v ≠ [] := by
      intro h
      rw [h] at hs
      norm_num [sumSq] at hs
    rw [cosine_self v hne]
    have heps : (0 : ℝ) < 1e-9 := by norm_num
    have h0 : (0 : ℝ) < sumSq v + 1e-9 := by nlinarith
    have hrw : sumSq v / (sumSq v + 1e-9) - 1 = -(1e-9 / (sumSq v + 1e-9)) := by
      field_simp
    rw [hrw, abs_neg, abs_of_nonneg (by positivity)]
    rw [div_le_iff h0]
    nlinarith

/-- C8 counterexample: the vector [1e-5] is non-zero, yet its self cosine
similarity is below one half - nowhere near 1.0 - because its squared norm
1e-10 is dominated by the 1e-9 guard in the denominator. -/
theorem c8_counterexample :
    cosine_similarity [(1 : ℝ)/100000] [(1 : ℝ)/100000] < 1/2 ∧
    ((1 : ℝ)/100000) ≠ 0 := by
  constructor
  · rw [cosine_self _ (List.cons_ne_nil _ _)]
    have hs : sumSq [(1 : ℝ)/100000] = 1/10000000000 := by
      norm_num [sumSq]
    rw [hs]
    norm_num
  · norm_num

theorem c8_witness :
    cosine_similarity [(1 : ℝ)] [1, 2] = 0 ∧
    cosine_similarity [(1 : ℝ)] [1] ≤ 1 ∧
    |cosine_similarity [(1 : ℝ)] [1] - 1| ≤ 1e-9 := by
  refine ⟨(c8_cosine_similarity [1] [1, 2] [1]).1
      (Or.inr (Or.inr (by norm_num))),
    (c8_cosine_similarity [1] [1] [1]).2.1.2,
    (c8_cosine_similarity [1] [1, 2] [1]).2.2 (by norm_num [sumSq])⟩

lemma cus_foldl_mem (e : List ℝ) (θ : ℝ) :
    ∀ (msgs : List Msg) (acc : List String) (s : String),
      s ∈ msgs.foldl (fun acc m =>
        if ¬ m.embedding.isEmpty ∧ m.embedding.length = e.length ∧
            cosine_similarity e m.embedding ≥ θ then
          if m.sender_id ≠ "" ∧ m.sender_id ∉ acc then acc ++ [m.sender_id]
          else acc
        else acc) acc ↔
      s ∈ acc ∨ ∃ m ∈ msgs,
        (¬ m.embedding.isEmpty ∧ m.embedding.length = e.length ∧
          cosine_similarity e m.embedding ≥ θ) ∧
        m.sender_id = s ∧ m.sender_id ≠ "" := by
  intro msgs
  induction msgs with
  | nil => intro acc s; simp
  | cons m t ih =>
    intro acc s
    rw [List.foldl_cons, ih, List.exists_mem_cons_iff]
    by_cases hq : ¬ m.embedding.isEmpty ∧ m.embedding.length = e.length ∧
        cosine_similarity e m.embedding ≥ θ
    · rw [if_pos hq]
      by_cases hs : m.sender_id ≠ "" ∧ m.sender_id ∉ acc
      · rw [if_pos hs]
        constructor
        · rintro (hmem | hrest)
          · rcases List.mem_append.mp hmem with ha | hb
            · exact Or.inl ha
            · exact Or.inr (Or.inl
                ⟨hq, (List.mem_singleton.mp hb).symm, hs.1⟩)
          · exact Or.inr (Or.inr hrest)
        · rintro (ha | hmid | hrest)
          · exact Or.inl (List.mem_append.mpr (Or.inl ha))
          · exact Or.inl (List.mem_append.mpr
              (Or.inr (List.mem_singleton.mpr hmid.2.1.symm)))
          · exact Or.inr hrest
      · rw [if_neg hs]
        rcases Decidable.not_and_iff_or_not.mp hs with h0 | hin
        · have hid : m.sender_id = "" := not_not.mp h0
          constructor
          · rintro (ha | hrest)
            · exact Or.inl ha
            · exact Or.inr (Or.inr hrest)
          · rintro (ha | hmid | hrest)
            · exact Or.inl ha
            · exact absurd hid hmid.2.2
            · exact Or.inr hrest
        · have hin' : m.sender_id ∈ acc := not_not.mp hin
          constructor
          · rintro (ha | hrest)
            · exact Or.inl ha
            · exact Or.inr (Or.inr hrest)
          · rintro (ha | hmid | hrest)
            · exact Or.inl ha
            · exact Or.inl (hmid.2.1 ▸ hin')
            · exact Or.inr hrest
    · rw [if_neg hq]
      constructor
      · rintro (ha | hrest)
        · exact Or.inl ha
        · exact Or.inr (Or.inr hrest)
      · rintro (ha | hmid | hrest)
        · exact Or.inl ha
        · exact absurd hmid.1 hq
        · exact Or.inr hrest

lemma cus_mem (msgs : List Msg) (e : List ℝ) (θ : ℝ) (s : String) :
    s ∈ (count_unique_senders msgs e θ).2 ↔
      ∃ m ∈ msgs,
        (¬ m.embedding.isEmpty ∧ m.embedding.length = e.length ∧
          cosine_similarity e m.embedding ≥ θ) ∧
        m.sender_id = s ∧ m.sender_id ≠ "" := by
  unfold count_unique_senders
  rw [cus_foldl_mem]
  simp

lemma cush_foldl_mem (h : List (Fin 16)) (θ : ℚ) :
    ∀ (msgs : List Msg) (acc : List String) (s : String),
      s ∈ msgs.foldl (fun acc m =>
        if ¬ m.image_hash.isEmpty ∧
            hash_similarity h m.image_hash ≥ θ then
          if m.sender_id ≠ "" ∧ m.sender_id ∉ acc then acc ++ [m.sender_id]
          else acc
        else acc) acc ↔
      s ∈ acc ∨ ∃ m ∈ msgs,
        (¬ m.image_hash.isEmpty ∧ hash_similarity h m.image_hash ≥ θ) ∧
        m.sender_id = s ∧ m.sender_id ≠ "" := by
  intro msgs
  induction msgs with
  | nil => intro acc s; simp
  | cons m t ih =>
    intro acc s
    rw [List.foldl_cons, ih, List.exists_mem_cons_iff]
    by_cases hq : ¬ m.image_hash.isEmpty ∧ hash_similarity h m.image_hash ≥ θ
    · rw [if_pos hq]
      by_cases hs : m.sender_id ≠ "" ∧ m.sender_id ∉ acc
      · rw [if_pos hs]
        constructor
        · rintro (hmem | hrest)
          · rcases List.mem_append.mp hmem with ha | hb
            · exact Or.inl ha
            · exact Or.inr (Or.inl
                ⟨hq, (List.mem_singleton.mp hb).symm, hs.1⟩)
          · exact Or.inr (Or.inr hrest)
        · rintro (ha | hmid | hrest)
          · exact Or.inl (List.mem_append.mpr (Or.inl ha))
          · exact Or.inl (List.mem_append.mpr
              (Or.inr (List.mem_singleton.mpr hmid.2.1.symm)))
          · exact Or.inr hrest
      · rw [if_neg hs]
        rcases Decidable.not_and_iff_or_not.mp hs with h0 | hin
        · have hid : m.sender_id = "" := not_not.mp h0
          constructor
          · rintro (ha | hrest)
            · exact Or.inl ha
            · exact Or.inr (Or.inr hrest)
          · rintro (ha | hmid | hrest)
            · exact Or.inl ha
            · exact absurd hid hmid.2.2
            · exact Or.inr hrest
        · have hin' : m.sender_id ∈ acc := not_not.mp hin
          constructor
          · rintro (ha | hrest)
            · exact Or.inl ha
            · exact Or.inr (Or.inr hrest)
          · rintro (ha | hmid | hrest)
            · exact Or.inl ha
            · exact Or.inl (hmid.2.1 ▸ hin')
            · exact Or.inr hrest
    · rw [if_neg hq]
      constructor
      · rintro (ha | hrest)
        · exact Or.inl ha
        · exact Or.inr (Or.inr hrest)
      · rintro (ha | hmid | hrest)
        · exact Or.inl ha
        · exact absurd hmid.1 hq
        · exact Or.inr hrest

lemma cush_mem (msgs : List Msg) (h : List (Fin 16)) (θ : ℚ) (s : String) :
    s ∈ (count_unique_senders_by_hash msgs h θ).2 ↔
      ∃ m ∈ msgs,
        (¬ m.image_hash.isEmpty ∧ hash_similarity h m.image_hash ≥ θ) ∧
        m.sender_id = s ∧ m.sender_id ≠ "" := by
  unfold count_unique_senders_by_hash
  rw [cush_foldl_mem]
  simp

/-- C10 (amended): both sender counters run over the snapshot that already
includes the in-flight message, so the current sender is counted exactly when
the current record's own fingerprint qualifies against the query at the
threshold and its sender_id is non-empty; a record whose sender_id is missing
or empty is never counted, whatever its similarity. -/
theorem c10_sender_counting (msgs : List Msg) (c : Msg) (e : List ℝ)
    (h : List (Fin 16)) (tθ : ℝ) (iθ : ℚ) (s : String) :
    (¬ c.embedding.isEmpty → c.embedding.length = e.length →
      cosine_similarity e c.embedding ≥ tθ → c.sender_id ≠ "" →
      c.sender_id ∈ (count_unique_senders (msgs ++ [c]) e tθ).2) ∧
    (s ∈ (count_unique_senders msgs e tθ).2 →
      s ≠ "" ∧ ∃ m ∈ msgs, m.sender_id = s) ∧
    (¬ c.image_hash.isEmpty → hash_similarity h c.image_hash ≥ iθ →
      c.sender_id ≠ "" →
      c.sender_id ∈ (count_unique_senders_by_hash (msgs ++ [c]) h iθ).2) ∧
    (s ∈ (count_unique_senders_by_hash msgs h iθ).2 →
      s ≠ "" ∧ ∃ m ∈ msgs, m.sender_id = s) := by
  refine ⟨?_, ?_, ?_, ?_⟩
  · intro h1 h2 h3 h4
    exact (cus_mem (msgs ++ [c]) e tθ c.sender_id).mpr
      ⟨c, List.mem_append.mpr (Or.inr (List.mem_singleton.mpr rfl)),
        ⟨h1, h2, h3⟩, rfl, h4⟩
  · intro hmem
    obtain ⟨m, hm, _, heq, hne⟩ := (cus_mem msgs e tθ s).mp hmem
    exact ⟨heq ▸ hne, m, hm, heq⟩
  · intro h1 h2 h3
    exact (cush_mem (msgs ++ [c]) h iθ c.sender_id).mpr
      ⟨c, List.mem_append.mpr (Or.inr (List.mem_singleton.mpr rfl)),
        ⟨h1, h2⟩, rfl, h3⟩
  · intro hmem
    obtain ⟨m, hm, _, heq, hne⟩ := (cush_mem msgs h iθ s).mp hmem
    exact ⟨heq ▸ hne, m, hm, heq⟩

/-- Records for the C10 scenario: a matched historical record with a large
embedding and a current message with a tiny-norm embedding. -/
noncomputable def mQ : Msg :=
  mkRecord "id-rich" "rich" "Rich" "t" 400 [(1000 : ℝ)] false []

noncomputable def recTiny : Msg :=
  mkRecord "id-q" "q" "Q" "t" 500 [(1 : ℝ)/100000] false []

noncomputable def recBig : Msg :=
  mkRecord "id-big" "carol" "C" "t" 600 [(1000 : ℝ)] false []

lemma cos_tiny_big :
    cosine_similarity [(1 : ℝ)/100000] [(1000 : ℝ)] =
      (1/100) / (1/100 + 1e-9) := by
  unfold cosine_similarity
  rw [if_neg (by simp)]
  have h1 : sumSq [(1 : ℝ)/100000] = (1/100000) ^ 2 := by
    norm_num [sumSq]
  have h2 : sumSq [(1000 : ℝ)] = 1000 ^ 2 := by norm_num [sumSq]
  rw [h1, h2, Real.sqrt_sq (by norm_num), Real.sqrt_sq (by norm_num)]
  norm_num [dotL]

lemma cos_tiny_self :
    cosine_similarity [(1 : ℝ)/100000] [(1 : ℝ)/100000] =
      (1/10000000000) / (1/10000000000 + 1e-9) := by
  rw [cosine_self _ (List.cons_ne_nil _ _)]
  have hs : sumSq [(1 : ℝ)/100000] = 1/10000000000 := by norm_num [sumSq]
  rw [hs]

lemma count_text_eval :
    count_unique_senders [mQ, recTiny] [(1 : ℝ)/100000] 0.85 =
      (1, ["rich"]) := by
  unfold count_unique_senders
  simp only [List.foldl_cons, List.foldl_nil, mQ, recTiny, mkRecord]
  simp only [cos_tiny_big, cos_tiny_self]
  norm_num
  decide

/-- C10 counterexample: the snapshot [mQ, recTiny] includes the current
message recTiny, whose sender q is non-empty, and the query has a
threshold-qualifying match (mQ), yet the distinct-sender count is 1 and q is
not counted: the current record's own similarity to the query embedding falls
below the threshold because its norm is tiny relative to the 1e-9 guard. -/
theorem c10_counterexample :
    (count_unique_senders [mQ, recTiny] [(1 : ℝ)/100000] 0.85).1 = 1 ∧
    (count_unique_senders [mQ, recTiny] [(1 : ℝ)/100000] 0.85).2 =
      ["rich"] ∧
    recTiny.sender_id = "q" ∧ ("q" : String) ≠ "" ∧
    cosine_similarity [(1 : ℝ)/100000] mQ.embedding ≥ 0.85 := by
  refine ⟨by rw [count_text_eval], by rw [count_text_eval], rfl,
    by decide, ?_⟩
  show cosine_similarity [(1 : ℝ)/100000] [(1000 : ℝ)] ≥ 0.85
  rw [cos_tiny_big]
  norm_num

theorem c10_witness :
    "carol" ∈ (count_unique_senders ([mQ] ++ [recBig]) [(1000 : ℝ)]
      0.85).2 ∧
    "carol" ∈ (count_unique_senders_by_hash ([msgA] ++ [recCarol]) hashF
      (9/10)).2 ∧
    ("carol" : String) ≠ "" ∧ ∃ m ∈ [mQ, recBig], m.sender_id = "carol" := by
  have hcos : cosine_similarity [(1000 : ℝ)] recBig.embedding ≥ 0.85 := by
    show cosine_similarity [(1000 : ℝ)] [(1000 : ℝ)] ≥ 0.85
    rw [cosine_self _ (List.cons_ne_nil _ _)]
    have hs : sumSq [(1000 : ℝ)] = 1000000 := by norm_num [sumSq]
    rw [hs]
    norm_num
  have hhash : hash_similarity hashF recCarol.image_hash ≥ 9/10 := by
    show hash_similarity hashF hashF ≥ 9/10
    rw [hash_similarity_self hashF (by decide)]
    norm_num
  have h1 := (c10_sender_counting [mQ] recBig [(1000 : ℝ)] hashF 0.85 (9/10)
      "x").1 (by simp [recBig, mkRecord]) (by simp [recBig, mkRecord]) hcos
      (by decide)
  have h2 := (c10_sender_counting [msgA] recCarol [] hashF 0.85 (9/10)
      "x").2.2.1 (by decide) hhash (by decide)
  have h3 := (c10_sender_counting [mQ, recBig] recBig [(1000 : ℝ)] hashF
      0.85 (9/10) "carol").2.1 h1
  exact ⟨h1, h2, h3.1, h3.2⟩

/-- Scan-relevant records for _find_best_match: a record is comparable when
its embedding is present with the query's dimensionality. -/
def comparableB (embedding : List ℝ) (p : Nat × Msg) : Bool :=
  !p.2.embedding.isEmpty && p.2.embedding.length == embedding.length

/-- Cosine similarity of an enumerated record against the query. -/
noncomputable def simOf (embedding : List ℝ) (p : Nat × Msg) : ℝ :=
  cosine_similarity embedding p.2.embedding

/-- Running-best similarity over a scan prefix, seeded with the code's
initial best_sim = 0.0. -/
noncomputable def maxSim0 (embedding : List ℝ) (C : List (Nat × Msg)) : ℝ :=
  (C.map (simOf embedding)).foldl max 0

/-- The records of messages scanned by _find_best_match: the enumerated
first len - exclude_recent entries, restricted to comparable records. -/
def scanned_comparables (messages : List Msg) (embedding : List ℝ)
    (exclude_recent : Nat) : List (Nat × Msg) :=
  ((messages.take (if 0 < exclude_recent then
      messages.length - exclude_recent
    else messages.length)).enum).filter (comparableB embedding)

/-- Characterization of a _find_best_match accumulator against the list C of
comparable scanned records: best_sim is the maximum of 0.0 and the
similarities of C, and best_msg/best_idx name the earliest record attaining
that maximum when it is positive and reaches the threshold, and stay
None / -1 otherwise. -/
def FbmInv (embedding : List ℝ) (threshold : ℝ) (C : List (Nat × Msg))
    (acc : Option Msg × Int × ℝ) : Prop :=
  acc.2.2 = maxSim0 embedding C ∧
  ((0 < acc.2.2 ∧ threshold ≤ acc.2.2) →
    ∃ p, p ∈ C ∧ simOf embedding p = acc.2.2 ∧
      (∀ q ∈ C, simOf embedding q = acc.2.2 → p.1 ≤ q.1) ∧
      acc.1 = some p.2 ∧ acc.2.1 = (p.1 : Int)) ∧
  (¬ (0 < acc.2.2 ∧ threshold ≤ acc.2.2) → acc.1 = none ∧ acc.2.1 = -1)

lemma le_foldl_max (l : List ℝ) : ∀ a : ℝ, a ≤ l.foldl max a := by
  induction l with
  | nil => intro a; simp
  | cons x t ih =>
    intro a
    exact le_trans (le_max_left a x) (ih (max a x))

lemma mem_le_foldl_max (l : List ℝ) :
    ∀ (a x : ℝ), x ∈ l → x ≤ l.foldl max a := by
  induction l with
  | nil => intro a x hx; cases hx
  | cons y t ih =>
    intro a x hx
    rcases List.mem_cons.mp hx with rfl | hx'
    · exact le_trans (le_max_right a x) (le_foldl_max t (max a x))
    · exact ih (max a y) x hx'

lemma maxSim0_nonneg (e : List ℝ) (C : List (Nat × Msg)) :
    0 ≤ maxSim0 e C := le_foldl_max _ 0

lemma maxSim0_append (e : List ℝ) (C : List (Nat × Msg)) (c : Nat × Msg) :
    maxSim0 e (C ++ [c]) = max (maxSim0 e C) (simOf e c) := by
  unfold maxSim0
  rw [List.map_append, List.foldl_append]
  simp

lemma simOf_le_maxSim0 (e : List ℝ) (C : List (Nat × Msg)) (p : Nat × Msg)
    (hp : p ∈ C) : simOf e p ≤ maxSim0 e C :=
  mem_le_foldl_max _ 0 _ (List.mem_map_of_mem _ hp)

lemma fbmStep_inv (e : List ℝ) (θ : ℝ) (C : List (Nat × Msg))
    (acc : Option Msg × Int × ℝ) (n : Nat) (m : Msg)
    (hinv : FbmInv e θ C acc) (hidx : ∀ p ∈ C, p.1 < n)
    (hcomp : comparableB e (n, m) = true) :
    FbmInv e θ (C ++ [(n, m)]) (fbmStep e θ acc (n, m)) := by
  obtain ⟨hbs, hpos, hneg⟩ := hinv
  have hc := hcomp
  unfold comparableB at hc
  rw [Bool.and_eq_true, Bool.not_eq_true', beq_iff_eq] at hc
  have hbs0 : 0 ≤ acc.2.2 := hbs ▸ maxSim0_nonneg e C
  unfold fbmStep
  rw [if_neg (by rw [hc.1]; exact Bool.false_ne_true), if_neg (by
    rw [hc.2]
    exact fun hne => hne rfl)]
  have hsim : simOf e (n, m) = cosine_similarity e m.embedding := rfl
  by_cases h3 : cosine_similarity e m.embedding > acc.2.2
  · rw [if_pos h3]
    by_cases h4 : cosine_similarity e m.embedding ≥ θ
    · rw [if_pos h4]
      refine ⟨?_, ?_, ?_⟩
      · rw [maxSim0_append, hsim, ← hbs,
          max_eq_right (le_of_lt h3)]
      · intro _
        refine ⟨(n, m), List.mem_append.mpr (Or.inr (List.mem_singleton.mpr
          rfl)), hsim, ?_, rfl, rfl⟩
        intro q hq hsq
        rcases List.mem_append.mp hq with hqC | hqm
        · exfalso
          have hle := simOf_le_maxSim0 e C q hqC
          rw [← hbs] at hle
          rw [hsq] at hle
          exact absurd h3 (not_lt.mpr hle)
        · rw [List.mem_singleton.mp hqm]
      · intro hcon
        exact absurd ⟨lt_of_le_of_lt hbs0 h3, h4⟩ hcon
    · rw [if_neg h4]
      have hold : ¬ (0 < acc.2.2 ∧ θ ≤ acc.2.2) := by
        rintro ⟨_, hθ⟩
        exact h4 (le_of_lt (lt_of_le_of_lt hθ h3))
      obtain ⟨ha1, ha2⟩ := hneg hold
      refine ⟨?_, ?_, ?_⟩
      · rw [maxSim0_append, hsim, ← hbs, max_eq_right (le_of_lt h3)]
      · rintro ⟨_, hθ⟩
        exact absurd hθ h4
      · intro _
        exact ⟨ha1, ha2⟩
  · rw [if_neg h3]
    have hsle : cosine_similarity e m.embedding ≤ acc.2.2 := not_lt.mp h3
    have hmax : maxSim0 e (C ++ [(n, m)]) = acc.2.2 := by
      rw [maxSim0_append, hsim, ← hbs, max_eq_left hsle]
    refine ⟨hmax.symm, ?_, ?_⟩
    · intro hcond
      obtain ⟨p, hpC, hps, hmin, h5, h6⟩ := hpos hcond
      refine ⟨p, List.mem_append.mpr (Or.inl hpC), hps, ?_, h5, h6⟩
      intro q hq hsq
      rcases List.mem_append.mp hq with hqC | hqm
      · exact hmin q hqC hsq
      · rw [List.mem_singleton.mp hqm]
        exact le_of_lt (hidx p hpC)
    · intro h
      exact hneg h

lemma fbmStep_skip (e : List ℝ) (θ : ℝ) (acc : Option Msg × Int × ℝ)
    (n : Nat) (m : Msg) (hcomp : ¬ comparableB e (n, m) = true) :
    fbmStep e θ acc (n, m) = acc := by
  have hcomp' : ((n, m) : Nat × Msg).2.embedding.isEmpty = true ∨
      ((n, m) : Nat × Msg).2.embedding.length ≠ e.length := by
    by_contra hcon
    push_neg at hcon
    apply hcomp
    unfold comparableB
    rw [Bool.and_eq_true, Bool.not_eq_true', beq_iff_eq]
    exact ⟨Bool.not_eq_true _ ▸ hcon.1, hcon.2⟩
  rcases hcomp' with h | h
  · unfold fbmStep
    rw [if_pos h]
  · unfold fbmStep
    by_cases h0 : ((n, m) : Nat × Msg).2.embedding.isEmpty = true
    · rw [if_pos h0]
    · rw [if_neg h0, if_pos h]

lemma fbm_go_inv (e : List ℝ) (θ : ℝ) :
    ∀ (ms : List Msg) (n : Nat) (acc : Option Msg × Int × ℝ)
      (C : List (Nat × Msg)),
      FbmInv e θ C acc → (∀ p ∈ C, p.1 < n) →
      FbmInv e θ (C ++ (List.enumFrom n ms).filter (comparableB e))
        ((List.enumFrom n ms).foldl (fbmStep e θ) acc) ∧
      (∀ p ∈ C ++ (List.enumFrom n ms).filter (comparableB e), p.1 < n + ms.length) := by
  intro ms
  induction ms with
  | nil =>
    intro n acc C hinv hidx
    simp only [List.enumFrom, List.filter_nil, List.append_nil,
      List.foldl_nil]
    exact ⟨hinv, fun p hp => lt_of_lt_of_le (hidx p hp) (by simp)⟩
  | cons m tl ih =>
    intro n acc C hinv hidx
    simp only [List.enumFrom, List.foldl_cons]
    by_cases hcomp : comparableB e (n, m) = true
    · rw [List.filter_cons_of_pos hcomp]
      have hstep := fbmStep_inv e θ C acc n m hinv hidx hcomp
      have hidx' : ∀ p ∈ C ++ [(n, m)], p.1 < n + 1 := by
        intro p hp
        rcases List.mem_append.mp hp with h | h
        · exact Nat.lt_succ_of_lt (hidx p h)
        · rw [List.mem_singleton.mp h]
          exact Nat.lt_succ_self n
      have hrec := ih (n + 1) (fbmStep e θ acc (n, m)) (C ++ [(n, m)])
        hstep hidx'
      constructor
      · rw [show C ++ ((n, m) :: (List.enumFrom (n + 1) tl).filter
            (comparableB e)) = (C ++ [(n, m)]) ++
            (List.enumFrom (n + 1) tl).filter (comparableB e) by
          rw [List.append_assoc]; rfl]
        exact hrec.1
      · intro p hp
        have hp' : p ∈ (C ++ [(n, m)]) ++
            (List.enumFrom (n + 1) tl).filter (comparableB e) := by
          rw [List.append_assoc]
          simpa using hp
        have := hrec.2 p hp'
        rw [List.length_cons]
        omega
    · rw [List.filter_cons_of_neg hcomp, fbmStep_skip e θ acc n m hcomp]
      have hidx' : ∀ p ∈ C, p.1 < n + 1 :=
        fun p hp => Nat.lt_succ_of_lt (hidx p hp)
      have hrec := ih (n + 1) acc C hinv hidx'
      refine ⟨hrec.1, ?_⟩
      intro p hp
      have := hrec.2 p hp
      rw [List.length_cons]
      omega

/-- C3 (amended): _find_best_match scans only records[0 .. len - excludeRecent)
and skips records lacking an embedding or with mismatched dimensionality (the
comparable scanned records are scanned_comparables); it returns as
bestScoreSeen the maximum of 0.0 and the cosine similarities of the comparable
scanned records; and it returns as the match the earliest-scanned record
attaining that maximum - equivalently the highest-similarity
threshold-qualifying record with ties to the earliest - provided the maximum
both reaches the threshold and is strictly positive, and no record otherwise
(with index -1). -/
theorem c3_find_best_match (messages : List Msg) (embedding : List ℝ)
    (threshold : ℝ) (exclude_recent : Nat) :
    FbmInv embedding threshold
      (scanned_comparables messages embedding exclude_recent)
      (find_best_match messages embedding threshold exclude_recent) := by
  have base : FbmInv embedding threshold [] (none, -1, 0) := by
    refine ⟨rfl, ?_, ?_⟩
    · rintro ⟨h0, _⟩
      exact absurd h0 (lt_irrefl 0)
    · intro _
      exact ⟨rfl, rfl⟩
  have hmain := fbm_go_inv embedding threshold
    (messages.take (if 0 < exclude_recent then
      messages.length - exclude_recent else messages.length)) 0
    (none, -1, 0) [] base (by simp)
  have h1 := hmain.1
  rw [List.nil_append] at h1
  exact h1

lemma cos_negone_one :
    cosine_similarity [(-1 : ℝ)] [(1 : ℝ)] = -(1 / (1 + 1e-9)) := by
  unfold cosine_similarity
  rw [if_neg (by simp)]
  simp only [dotL, sumSq, List.zipWith_cons_cons, List.zipWith_nil_right,
    List.map_cons, List.map_nil, List.sum_cons, List.sum_nil, add_zero]
  rw [show (-1 : ℝ) * -1 = 1 by norm_num, Real.sqrt_one]
  norm_num

noncomputable def mNeg : Msg :=
  mkRecord "id-n" "neil" "N" "t" 50 [(1 : ℝ)] false []

/-- C3 counterexample: with one comparable record of negative similarity and
threshold -2, the record reaches the threshold yet no match is returned, and
bestScoreSeen is 0.0 rather than the maximum similarity of the scanned
comparable records (which is negative). -/
theorem c3_counterexample :
    find_best_match [mNeg] [(-1 : ℝ)] (-2) 0 = (none, -1, 0) ∧
    cosine_similarity [(-1 : ℝ)] mNeg.embedding < 0 ∧
    (-2 : ℝ) ≤ cosine_similarity [(-1 : ℝ)] mNeg.embedding ∧
    mNeg.embedding.isEmpty = false ∧
    mNeg.embedding.length = [(-1 : ℝ)].length := by
  refine ⟨?_, ?_, ?_, rfl, rfl⟩
  · show fbmStep [(-1 : ℝ)] (-2) (none, -1, 0) (0, mNeg) = (none, -1, 0)
    unfold fbmStep
    simp only [mNeg, mkRecord]
    rw [if_neg (by simp), if_neg (by simp), if_neg (by
      rw [cos_negone_one]
      norm_num)]
  · show cosine_similarity [(-1 : ℝ)] [(1 : ℝ)] < 0
    rw [cos_negone_one]
    norm_num
  · show (-2 : ℝ) ≤ cosine_similarity [(-1 : ℝ)] [(1 : ℝ)]
    rw [cos_negone_one]
    norm_num

theorem c3_witness :
    (find_best_match [mkT 100] [(1 : ℝ)] 0.85 0).1 = some (mkT 100) := by
  have h := c3_find_best_match [mkT 100] [(1 : ℝ)] 0.85 0
  rw [show scanned_comparables [mkT 100] [(1 : ℝ)] 0 = [(0, mkT 100)] from by
    unfold scanned_comparables comparableB
    simp [mkT, mkRecord]] at h
  have hbs : (find_best_match [mkT 100] [(1 : ℝ)] 0.85 0).2.2 =
      cosine_similarity [(1 : ℝ)] [(1 : ℝ)] := by
    rw [h.1]
    unfold maxSim0 simOf
    simp only [List.map_cons, List.map_nil, List.foldl_cons, List.foldl_nil,
      mkT, mkRecord]
    exact max_eq_right (le_of_lt (by rw [cos_one_one]; norm_num))
  obtain ⟨p, hpmem, _, _, hfst, _⟩ := h.2.1
    ⟨by rw [hbs, cos_one_one]; norm_num, by rw [hbs, cos_one_one]; norm_num⟩
  rw [hfst, List.mem_singleton.mp hpmem]
